import Mathlib

/-!
Verification of the procedural world generator of the DnD_Adventure repository
(`src/worldgen`: noise, heightmap, biomes, rivers, POIs, roads, cache,
orchestrator, plus the starting-location resolver of `src/player_manager`).

The Python sources are shallowly embedded: Python `float` arithmetic is
modelled by exact rationals (`ℚ`), Python arbitrary-precision integers by `ℤ`
(Python's bitwise operators on negative integers follow two's complement,
which is exactly the semantics of `Int.xor` / `Int.land` / `>>>` in Mathlib),
2D list-of-list grids by functions `ℕ → ℕ → α` indexed row-first (so `g j i`
corresponds to `g[j][i]`), and the seeded RNG by an arbitrary stream of draws.
Bounded `for`/`while` loops become structural recursion on the loop budget.
-/

/-- 2D grid indexed `g j i` for row `j`, column `i`, mirroring Python's
`g[j][i]` on a list of rows. -/
def Grid (α : Type) : Type := ℕ → ℕ → α

/-- Pointwise update of a grid at row `j`, column `i` — the embedding of the
in-place assignment `g[j][i] = v`. -/
def Grid.set {α : Type} (g : Grid α) (j i : ℕ) (v : α) : Grid α :=
  fun j' i' => if j' = j ∧ i' = i then v else g j' i'

/-! ### Noise engine (`src/worldgen/noise.py`) -/

/-- `_hash2i(x, y, seed)`: deterministic 2D hash to a 32-bit value.  Python's
`^`, `>>` and `&` on unbounded signed integers are two's-complement bitwise
operations, i.e. `Int.xor`, arithmetic `>>>` and `Int.land`. -/
def hash2i (x y seed : ℤ) : ℤ :=
  let n : ℤ := Int.xor (Int.xor (x * 0x1f1f1f1f) (y * 0x5f356495)) seed
  let n : ℤ := Int.xor n (n >>> (13 : ℤ))
  let n : ℤ := n * 0x85ebca6b
  let n : ℤ := Int.xor n (n >>> (16 : ℤ))
  Int.land n 0xFFFFFFFF

/-- `_rand01(h) = (h % 1000003) / 1000003.0`.  Python `%` with a positive
modulus returns a value in `[0, 1000003)`, which is `Int.emod`. -/
def rand01 (h : ℤ) : ℚ :=
  ((h % 1000003 : ℤ) : ℚ) / 1000003

/-- `value_at(ix, iy, seed)`: pure hash of the integer lattice point. -/
def value_at (ix iy seed : ℤ) : ℚ :=
  rand01 (hash2i ix iy seed)

/-- `_smoothstep(t) = t*t*(3 - 2*t)`. -/
def smoothstep (t : ℚ) : ℚ := t * t * (3 - 2 * t)

/-- `_lerp(a, b, t) = a + (b - a)*t`. -/
def lerp (a b t : ℚ) : ℚ := a + (b - a) * t

/-- `value_noise2d(x, y, seed)`: bilinear interpolation of `value_at` at the
four surrounding lattice points with smoothstep easing on both axes. -/
def value_noise2d (x y : ℚ) (seed : ℤ) : ℚ :=
  let ix : ℤ := ⌊x⌋
  let iy : ℤ := ⌊y⌋
  let fx : ℚ := x - ix
  let fy : ℚ := y - iy
  let v00 := value_at ix iy seed
  let v10 := value_at (ix + 1) iy seed
  let v01 := value_at ix (iy + 1) seed
  let v11 := value_at (ix + 1) (iy + 1) seed
  let sx := smoothstep fx
  let sy := smoothstep fy
  let ix0 := lerp v00 v10 sx
  let ix1 := lerp v01 v11 sx
  lerp ix0 ix1 sy

/-- The loop body of `fbm`: `octaves` iterations accumulating
`(amp, freq, total, norm)`. -/
def fbmLoop (x y : ℚ) (seed : ℤ) (persistence lacunarity : ℚ) :
    ℕ → ℚ → ℚ → ℚ → ℚ → ℚ × ℚ
  | 0, _, _, total, norm => (total, norm)
  | k + 1, amp, freq, total, norm =>
      fbmLoop x y seed persistence lacunarity k (amp * persistence) (freq * lacunarity)
        (total + value_noise2d (x * freq) (y * freq) seed * amp) (norm + amp)

/-- `fbm(x, y, seed, octaves, persistence, lacunarity)`: fractal sum of
`value_noise2d`, normalized by `max(norm, 1e-9)`. -/
def fbm (x y : ℚ) (seed : ℤ) (octaves : ℕ) (persistence lacunarity : ℚ) : ℚ :=
  let tn := fbmLoop x y seed persistence lacunarity octaves 1 1 0 0
  tn.1 / max tn.2 (1 / 1000000000)

/-! ### Range lemmas for the noise engine -/

theorem rand01_nonneg (h : ℤ) : 0 ≤ rand01 h := by
  unfold rand01
  have h1 : (0 : ℤ) ≤ h % 1000003 := Int.emod_nonneg h (by norm_num)
  positivity

theorem rand01_lt_one (h : ℤ) : rand01 h < 1 := by
  unfold rand01
  have h2 : h % 1000003 < 1000003 := Int.emod_lt_of_pos h (by norm_num)
  rw [div_lt_one (by norm_num)]
  exact_mod_cast h2

theorem value_at_nonneg (ix iy seed : ℤ) : 0 ≤ value_at ix iy seed :=
  rand01_nonneg _

theorem value_at_lt_one (ix iy seed : ℤ) : value_at ix iy seed < 1 :=
  rand01_lt_one _

theorem smoothstep_mem (t : ℚ) (h0 : 0 ≤ t) (h1 : t ≤ 1) :
    0 ≤ smoothstep t ∧ smoothstep t ≤ 1 := by
  unfold smoothstep
  constructor
  · nlinarith
  · nlinarith [sq_nonneg (1 - t), mul_nonneg (mul_nonneg h0 h0) h0]

theorem lerp_bounds (a b t : ℚ) (ha0 : 0 ≤ a) (ha1 : a < 1) (hb0 : 0 ≤ b)
    (hb1 : b < 1) (ht0 : 0 ≤ t) (ht1 : t ≤ 1) :
    0 ≤ lerp a b t ∧ lerp a b t < 1 := by
  unfold lerp
  constructor
  · nlinarith
  · rcases eq_or_lt_of_le ht1 with h | h
    · nlinarith
    · nlinarith [mul_nonneg (sub_nonneg.mpr ht1) (sub_nonneg.mpr ha1.le)]

theorem value_noise2d_nonneg_lt_one (x y : ℚ) (seed : ℤ) :
    0 ≤ value_noise2d x y seed ∧ value_noise2d x y seed < 1 := by
  unfold value_noise2d
  have hfx0 : (0 : ℚ) ≤ x - ⌊x⌋ := by
    have := Int.floor_le x
    linarith
  have hfx1 : x - (⌊x⌋ : ℚ) ≤ 1 := by
    have := Int.lt_floor_add_one x
    linarith
  have hfy0 : (0 : ℚ) ≤ y - ⌊y⌋ := by
    have := Int.floor_le y
    linarith
  have hfy1 : y - (⌊y⌋ : ℚ) ≤ 1 := by
    have := Int.lt_floor_add_one y
    linarith
  have hsx := smoothstep_mem _ hfx0 hfx1
  have hsy := smoothstep_mem _ hfy0 hfy1
  have h0 := lerp_bounds (value_at ⌊x⌋ ⌊y⌋ seed) (value_at (⌊x⌋ + 1) ⌊y⌋ seed)
    (smoothstep (x - ⌊x⌋)) (value_at_nonneg _ _ _) (value_at_lt_one _ _ _)
    (value_at_nonneg _ _ _) (value_at_lt_one _ _ _) hsx.1 hsx.2
  have h1 := lerp_bounds (value_at ⌊x⌋ (⌊y⌋ + 1) seed)
    (value_at (⌊x⌋ + 1) (⌊y⌋ + 1) seed) (smoothstep (x - ⌊x⌋))
    (value_at_nonneg _ _ _) (value_at_lt_one _ _ _) (value_at_nonneg _ _ _)
    (value_at_lt_one _ _ _) hsx.1 hsx.2
  exact lerp_bounds _ _ _ h0.1 h0.2 h1.1 h1.2 hsy.1 hsy.2

/-- C7: for every pair of rational coordinates `(x, y)` and every integer
seed, `value_noise2d x y seed` lies in the half-open interval `[0, 1)`, and
the function is a pure deterministic function of its arguments, so two calls
with identical inputs return identical results. -/
theorem value_noise2d_range_and_deterministic (x y : ℚ) (seed : ℤ) :
    0 ≤ value_noise2d x y seed ∧ value_noise2d x y seed < 1 ∧
      value_noise2d x y seed = value_noise2d x y seed :=
  ⟨(value_noise2d_nonneg_lt_one x y seed).1,
   (value_noise2d_nonneg_lt_one x y seed).2, rfl⟩

/-! ### Heightmap builder (`src/worldgen/biomes.py::generate_heightmap`,
identical to `src/worldgen/map_generator.py::_heightmap`) -/

/-- The noise configuration record consumed by the heightmap builder (the
values extracted from the `noise_cfg` dict with their defaults applied). -/
structure NoiseCfg where
  scale : ℚ
  octaves : ℕ
  persistence : ℚ
  lacunarity : ℚ
deriving Repr

/-- The raw (pre-normalization) fBm sample for cell `(i, j)`:
`fbm((i+1000)/scale, (j+1000)/scale, ...)` with `scale` clamped to at least
`1e-6`. -/
def rawHeight (seed : ℤ) (cfg : NoiseCfg) (i j : ℕ) : ℚ :=
  let scale := max (1 / 1000000) cfg.scale
  fbm (((i : ℚ) + 1000) / scale) (((j : ℚ) + 1000) / scale) seed
    cfg.octaves cfg.persistence cfg.lacunarity

/-- The grid of raw samples, row-major like the Python double loop. -/
def rawGrid (W H : ℕ) (seed : ℤ) (cfg : NoiseCfg) : List (List ℚ) :=
  (List.range H).map fun j => (List.range W).map fun i => rawHeight seed cfg i j

/-- Python's `min` over a nonempty list (`[]` is mapped to `0`; the sources
only apply it to nonempty lists). -/
def listMin : List ℚ → ℚ
  | [] => 0
  | x :: xs => xs.foldl min x

/-- Python's `max` over a nonempty list. -/
def listMax : List ℚ → ℚ
  | [] => 0
  | x :: xs => xs.foldl max x

/-- `lo = min(min(row) for row in hm)`. -/
def gridLo (W H : ℕ) (seed : ℤ) (cfg : NoiseCfg) : ℚ :=
  listMin ((rawGrid W H seed cfg).map listMin)

/-- `hi = max(max(row) for row in hm)`. -/
def gridHi (W H : ℕ) (seed : ℤ) (cfg : NoiseCfg) : ℚ :=
  listMax ((rawGrid W H seed cfg).map listMax)

/-- `rng = max(hi - lo, 1e-9)`: the normalization denominator. -/
def gridRng (W H : ℕ) (seed : ℤ) (cfg : NoiseCfg) : ℚ :=
  max (gridHi W H seed cfg - gridLo W H seed cfg) (1 / 1000000000)

/-- The raw spread `hi - lo` of the sampled grid before normalization. -/
def rawSpread (W H : ℕ) (seed : ℤ) (cfg : NoiseCfg) : ℚ :=
  gridHi W H seed cfg - gridLo W H seed cfg

/-- The normalized height of cell `(i, j)`: `(hm[j][i] - lo) / rng`. -/
def normHeight (W H : ℕ) (seed : ℤ) (cfg : NoiseCfg) (i j : ℕ) : ℚ :=
  (rawHeight seed cfg i j - gridLo W H seed cfg) / gridRng W H seed cfg

/-- `generate_heightmap(width, height, seed, noise_cfg)`: the H×W grid of
fBm samples after global min-max normalization. -/
def generate_heightmap (W H : ℕ) (seed : ℤ) (cfg : NoiseCfg) : List (List ℚ) :=
  (List.range H).map fun j => (List.range W).map fun i => normHeight W H seed cfg i j

/-! ### Fold lemmas for `listMin` / `listMax` -/

theorem foldl_min_le_init (l : List ℚ) : ∀ a : ℚ, l.foldl min a ≤ a := by
  induction l with
  | nil => intro a; simp
  | cons x xs ih =>
      intro a
      calc (x :: xs).foldl min a = xs.foldl min (min a x) := rfl
        _ ≤ min a x := ih _
        _ ≤ a := min_le_left _ _

theorem foldl_min_le_mem (l : List ℚ) :
    ∀ (a x : ℚ), x ∈ l → l.foldl min a ≤ x := by
  induction l with
  | nil => intro a x hx; simp at hx
  | cons y ys ih =>
      intro a x hx
      rcases List.mem_cons.mp hx with h | h
      · subst h
        calc (x :: ys).foldl min a = ys.foldl min (min a x) := rfl
          _ ≤ min a x := foldl_min_le_init _ _
          _ ≤ x := min_le_right _ _
      · exact ih _ _ h

theorem foldl_min_mem (l : List ℚ) :
    ∀ a : ℚ, l.foldl min a = a ∨ l.foldl min a ∈ l := by
  induction l with
  | nil => intro a; left; rfl
  | cons x xs ih =>
      intro a
      have : (x :: xs).foldl min a = xs.foldl min (min a x) := rfl
      rw [this]
      rcases ih (min a x) with h | h
      · rcases le_total a x with hax | hxa
        · left; rw [h, min_eq_left hax]
        · right; rw [h, min_eq_right hxa]; exact List.mem_cons_self _ _
      · right; exact List.mem_cons_of_mem _ h

theorem foldl_max_init_le (l : List ℚ) : ∀ a : ℚ, a ≤ l.foldl max a := by
  induction l with
  | nil => intro a; simp
  | cons x xs ih =>
      intro a
      calc a ≤ max a x := le_max_left _ _
        _ ≤ xs.foldl max (max a x) := ih _
        _ = (x :: xs).foldl max a := rfl

theorem foldl_max_mem_le (l : List ℚ) :
    ∀ (a x : ℚ), x ∈ l → x ≤ l.foldl max a := by
  induction l with
  | nil => intro a x hx; simp at hx
  | cons y ys ih =>
      intro a x hx
      rcases List.mem_cons.mp hx with h | h
      · subst h
        calc x ≤ max a x := le_max_right _ _
          _ ≤ ys.foldl max (max a x) := foldl_max_init_le _ _
          _ = (x :: ys).foldl max a := rfl
      · exact ih _ _ h

theorem foldl_max_mem (l : List ℚ) :
    ∀ a : ℚ, l.foldl max a = a ∨ l.foldl max a ∈ l := by
  induction l with
  | nil => intro a; left; rfl
  | cons x xs ih =>
      intro a
      have : (x :: xs).foldl max a = xs.foldl max (max a x) := rfl
      rw [this]
      rcases ih (max a x) with h | h
      · rcases le_total a x with hax | hxa
        · right; rw [h, max_eq_right hax]; exact List.mem_cons_self _ _
        · left; rw [h, max_eq_left hxa]
      · right; exact List.mem_cons_of_mem _ h

theorem listMin_le (l : List ℚ) (x : ℚ) (hx : x ∈ l) : listMin l ≤ x := by
  cases l with
  | nil => simp at hx
  | cons y ys =>
      rcases List.mem_cons.mp hx with h | h
      · subst h; exact foldl_min_le_init _ _
      · exact foldl_min_le_mem _ _ _ h

theorem listMin_mem (l : List ℚ) (hl : l ≠ []) : listMin l ∈ l := by
  cases l with
  | nil => exact absurd rfl hl
  | cons y ys =>
      rcases foldl_min_mem ys y with h | h
      · rw [show listMin (y :: ys) = ys.foldl min y from rfl, h]
        exact List.mem_cons_self _ _
      · exact List.mem_cons_of_mem _ h

theorem le_listMax (l : List ℚ) (x : ℚ) (hx : x ∈ l) : x ≤ listMax l := by
  cases l with
  | nil => simp at hx
  | cons y ys =>
      rcases List.mem_cons.mp hx with h | h
      · subst h; exact foldl_max_init_le _ _
      · exact foldl_max_mem_le _ _ _ h

theorem listMax_mem (l : List ℚ) (hl : l ≠ []) : listMax l ∈ l := by
  cases l with
  | nil => exact absurd rfl hl
  | cons y ys =>
      rcases foldl_max_mem ys y with h | h
      · rw [show listMax (y :: ys) = ys.foldl max y from rfl, h]
        exact List.mem_cons_self _ _
      · exact List.mem_cons_of_mem _ h

/-! ### Bounds and attainment for the heightmap -/

theorem mem_flatten_generate_heightmap (W H : ℕ) (seed : ℤ) (cfg : NoiseCfg)
    (v : ℚ) :
    v ∈ (generate_heightmap W H seed cfg).flatten ↔
      ∃ j, j < H ∧ ∃ i, i < W ∧ v = normHeight W H seed cfg i j := by
  constructor
  · intro hv
    rcases List.mem_flatten.mp hv with ⟨row, hrow, hvrow⟩
    rcases List.mem_map.mp hrow with ⟨j, hj, rfl⟩
    rcases List.mem_map.mp hvrow with ⟨i, hi, hvi⟩
    exact ⟨j, List.mem_range.mp hj, i, List.mem_range.mp hi, hvi.symm⟩
  · rintro ⟨j, hj, i, hi, rfl⟩
    exact List.mem_flatten.mpr
      ⟨_, List.mem_map.mpr ⟨j, List.mem_range.mpr hj, rfl⟩,
        List.mem_map.mpr ⟨i, List.mem_range.mpr hi, rfl⟩⟩

theorem gridLo_le_rawHeight (W H : ℕ) (seed : ℤ) (cfg : NoiseCfg) (i j : ℕ)
    (hi : i < W) (hj : j < H) :
    gridLo W H seed cfg ≤ rawHeight seed cfg i j := by
  have hrowmem : ((List.range W).map fun i => rawHeight seed cfg i j) ∈
      rawGrid W H seed cfg := by
    simp only [rawGrid, List.mem_map, List.mem_range]
    exact ⟨j, hj, rfl⟩
  have h1 : listMin ((List.range W).map fun i => rawHeight seed cfg i j) ∈
      (rawGrid W H seed cfg).map listMin := List.mem_map_of_mem listMin hrowmem
  have h2 : gridLo W H seed cfg ≤
      listMin ((List.range W).map fun i => rawHeight seed cfg i j) :=
    listMin_le _ _ h1
  have h3 : rawHeight seed cfg i j ∈
      (List.range W).map fun i => rawHeight seed cfg i j := by
    simp only [List.mem_map, List.mem_range]
    exact ⟨i, hi, rfl⟩
  exact le_trans h2 (listMin_le _ _ h3)

theorem rawHeight_le_gridHi (W H : ℕ) (seed : ℤ) (cfg : NoiseCfg) (i j : ℕ)
    (hi : i < W) (hj : j < H) :
    rawHeight seed cfg i j ≤ gridHi W H seed cfg := by
  have hrowmem : ((List.range W).map fun i => rawHeight seed cfg i j) ∈
      rawGrid W H seed cfg := by
    simp only [rawGrid, List.mem_map, List.mem_range]
    exact ⟨j, hj, rfl⟩
  have h1 : listMax ((List.range W).map fun i => rawHeight seed cfg i j) ∈
      (rawGrid W H seed cfg).map listMax := List.mem_map_of_mem listMax hrowmem
  have h2 : listMax ((List.range W).map fun i => rawHeight seed cfg i j) ≤
      gridHi W H seed cfg := le_listMax _ _ h1
  have h3 : rawHeight seed cfg i j ∈
      (List.range W).map fun i => rawHeight seed cfg i j := by
    simp only [List.mem_map, List.mem_range]
    exact ⟨i, hi, rfl⟩
  exact le_trans (le_listMax _ _ h3) h2

theorem gridRng_pos (W H : ℕ) (seed : ℤ) (cfg : NoiseCfg) :
    0 < gridRng W H seed cfg :=
  lt_of_lt_of_le (by norm_num) (le_max_right _ _)

theorem exists_cell_eq_gridLo (W H : ℕ) (seed : ℤ) (cfg : NoiseCfg)
    (hW : 1 ≤ W) (hH : 1 ≤ H) :
    ∃ j, j < H ∧ ∃ i, i < W ∧ rawHeight seed cfg i j = gridLo W H seed cfg := by
  have hne : (rawGrid W H seed cfg).map listMin ≠ [] := by
    simp only [ne_eq, List.map_eq_nil_iff, rawGrid, List.map_eq_nil_iff,
      List.range_eq_nil]
    omega
  have hmem := listMin_mem _ hne
  rw [show listMin ((rawGrid W H seed cfg).map listMin) = gridLo W H seed cfg
    from rfl] at hmem
  rcases List.mem_map.mp hmem with ⟨row, hrow, hrowmin⟩
  rcases (by simpa only [rawGrid, List.mem_map, List.mem_range] using hrow :
      ∃ j, j < H ∧ ((List.range W).map fun i => rawHeight seed cfg i j) = row)
    with ⟨j, hj, hrweq⟩
  have hrne : row ≠ [] := by
    rw [← hrweq]
    simp only [ne_eq, List.map_eq_nil_iff, List.range_eq_nil]
    omega
  have hminmem := listMin_mem row hrne
  rw [← hrweq] at hminmem
  rcases List.mem_map.mp hminmem with ⟨i, hi, hival⟩
  exact ⟨j, hj, i, List.mem_range.mp hi, by rw [hival, hrweq, hrowmin]⟩

theorem exists_cell_eq_gridHi (W H : ℕ) (seed : ℤ) (cfg : NoiseCfg)
    (hW : 1 ≤ W) (hH : 1 ≤ H) :
    ∃ j, j < H ∧ ∃ i, i < W ∧ rawHeight seed cfg i j = gridHi W H seed cfg := by
  have hne : (rawGrid W H seed cfg).map listMax ≠ [] := by
    simp only [ne_eq, List.map_eq_nil_iff, rawGrid, List.map_eq_nil_iff,
      List.range_eq_nil]
    omega
  have hmem := listMax_mem _ hne
  rw [show listMax ((rawGrid W H seed cfg).map listMax) = gridHi W H seed cfg
    from rfl] at hmem
  rcases List.mem_map.mp hmem with ⟨row, hrow, hrowmax⟩
  rcases (by simpa only [rawGrid, List.mem_map, List.mem_range] using hrow :
      ∃ j, j < H ∧ ((List.range W).map fun i => rawHeight seed cfg i j) = row)
    with ⟨j, hj, hrweq⟩
  have hrne : row ≠ [] := by
    rw [← hrweq]
    simp only [ne_eq, List.map_eq_nil_iff, List.range_eq_nil]
    omega
  have hmaxmem := listMax_mem row hrne
  rw [← hrweq] at hmaxmem
  rcases List.mem_map.mp hmaxmem with ⟨i, hi, hival⟩
  exact ⟨j, hj, i, List.mem_range.mp hi, by rw [hival, hrweq, hrowmax]⟩

/-- C4 (amended): for every `W ≥ 1`, `H ≥ 1`, seed and noise configuration,
`generate_heightmap` returns a grid of exactly `H` rows and `W` columns with
every value in `[0, 1]` and minimum value `0`; the maximum value equals `1`
whenever the raw spread `hi - lo` of the sampled grid is at least the `1e-9`
normalization epsilon (when the spread is below the epsilon — in particular,
but not only, when `W × H = 1` — the map degenerates and no cell reaches
`1`). -/
theorem generate_heightmap_spec (W H : ℕ) (seed : ℤ) (cfg : NoiseCfg)
    (hW : 1 ≤ W) (hH : 1 ≤ H) :
    (generate_heightmap W H seed cfg).length = H ∧
    (∀ row ∈ generate_heightmap W H seed cfg, row.length = W) ∧
    (∀ v ∈ (generate_heightmap W H seed cfg).flatten, 0 ≤ v ∧ v ≤ 1) ∧
    (∃ v ∈ (generate_heightmap W H seed cfg).flatten, v = 0) ∧
    (1 / 1000000000 ≤ rawSpread W H seed cfg →
      ∃ v ∈ (generate_heightmap W H seed cfg).flatten, v = 1) := by
  refine ⟨?_, ?_, ?_, ?_, ?_⟩
  · simp [generate_heightmap]
  · intro row hrow
    rcases List.mem_map.mp hrow with ⟨j, _, rfl⟩
    simp
  · intro v hv
    rcases (mem_flatten_generate_heightmap W H seed cfg v).mp hv with
      ⟨j, hj, i, hi, rfl⟩
    have hlo := gridLo_le_rawHeight W H seed cfg i j hi hj
    have hhi := rawHeight_le_gridHi W H seed cfg i j hi hj
    have hrng := gridRng_pos W H seed cfg
    unfold normHeight
    constructor
    · exact div_nonneg (by linarith) hrng.le
    · rw [div_le_one hrng]
      calc rawHeight seed cfg i j - gridLo W H seed cfg
          ≤ gridHi W H seed cfg - gridLo W H seed cfg := by linarith
        _ ≤ gridRng W H seed cfg := le_max_left _ _
  · rcases exists_cell_eq_gridLo W H seed cfg hW hH with ⟨j, hj, i, hi, heq⟩
    refine ⟨normHeight W H seed cfg i j,
      (mem_flatten_generate_heightmap W H seed cfg _).mpr ⟨j, hj, i, hi, rfl⟩, ?_⟩
    rw [normHeight, heq, sub_self, zero_div]
  · intro hsp
    rcases exists_cell_eq_gridHi W H seed cfg hW hH with ⟨j, hj, i, hi, heq⟩
    refine ⟨normHeight W H seed cfg i j,
      (mem_flatten_generate_heightmap W H seed cfg _).mpr ⟨j, hj, i, hi, rfl⟩, ?_⟩
    have hrngeq : gridRng W H seed cfg =
        gridHi W H seed cfg - gridLo W H seed cfg := max_eq_left hsp
    have hne : gridHi W H seed cfg - gridLo W H seed cfg ≠ 0 := by
      have : (0 : ℚ) < 1 / 1000000000 := by norm_num
      have := lt_of_lt_of_le this hsp
      rw [rawSpread] at this
      linarith
    rw [normHeight, heq, hrngeq, div_self hne]

/-- Witness for C4 at the concrete input `W = 2`, `H = 1`, seed `0`, default
scale `32`, one octave: the raw spread exceeds `1e-9`, so some cell of the
normalized heightmap equals `1`. -/
theorem generate_heightmap_spec_witness :
    ∃ v ∈ (generate_heightmap 2 1 0 ⟨32, 1, 1/2, 2⟩).flatten, v = 1 :=
  (generate_heightmap_spec 2 1 0 ⟨32, 1, 1/2, 2⟩ (by norm_num)
    (by norm_num)).2.2.2.2 (by with_unfolding_all decide)

/-- Counterexample to C4 as stated: with `W = 2`, `H = 1` (so `W × H = 2 ≠ 1`)
and the valid noise configuration `scale = 10^12`, one octave, the two raw
samples differ by less than the `1e-9` epsilon, the normalization divides by
the epsilon instead of the spread, and no cell of the result equals `1`. -/
theorem generate_heightmap_max_counterexample :
    2 * 1 ≠ 1 ∧
    ∀ v ∈ (generate_heightmap 2 1 0 ⟨1000000000000, 1, 1/2, 2⟩).flatten,
      v ≠ 1 :=
  ⟨by norm_num, by with_unfolding_all decide⟩

/-! ### Biome classifier (`src/worldgen/map_generator.py::
_normalize_biome_thresholds` and `_biome_from_height`) -/

/-- The four biome thresholds after merging the supplied mapping with the
defaults (a partial or invalid mapping just yields some four rationals, so
quantifying over this record covers every supplied mapping). -/
structure BiomeTh where
  water : ℚ
  sand : ℚ
  grass : ℚ
  forest : ℚ
deriving Repr, DecidableEq

/-- One step of the repair loop of `_normalize_biome_thresholds`: clamp the
value to `[0, 1]`, and if it is still below the previous threshold bump it to
`min(1, last + 0.01)`. -/
def thresholdStep (last v0 : ℚ) : ℚ :=
  if max 0 (min 1 v0) < last then min 1 (last + 1 / 100) else max 0 (min 1 v0)

/-- `_normalize_biome_thresholds`: repair the four thresholds in the order
water, sand, grass, forest, starting from `last = 0.0`. -/
def normalize_biome_thresholds (th : BiomeTh) : BiomeTh :=
  let w := thresholdStep 0 th.water
  let s := thresholdStep w th.sand
  let g := thresholdStep s th.grass
  let f := thresholdStep g th.forest
  ⟨w, s, g, f⟩

/-- `_biome_from_height`: first bucket whose upper threshold exceeds the
height, else "mountain". -/
def biome_from_height (h : ℚ) (th : BiomeTh) : String :=
  if h < th.water then "water"
  else if h < th.sand then "sand"
  else if h < th.grass then "grass"
  else if h < th.forest then "forest"
  else "mountain"

theorem thresholdStep_bounds (last v0 : ℚ) (h0 : 0 ≤ last) (h1 : last ≤ 1) :
    last ≤ thresholdStep last v0 ∧ 0 ≤ thresholdStep last v0 ∧
      thresholdStep last v0 ≤ 1 := by
  unfold thresholdStep
  split
  · refine ⟨le_min h1 (by linarith), le_min (by linarith) (by linarith),
      min_le_left _ _⟩
  · rename_i hlt
    push_neg at hlt
    exact ⟨hlt, le_max_left _ _,
      max_le (by norm_num) (min_le_left _ _)⟩

/-- C5: for every supplied biome-threshold mapping, the repaired thresholds
are non-decreasing in the order water ≤ sand ≤ grass ≤ forest, each lies in
`[0, 1]`, and with any thresholds the (total) classifier assigns every cell
exactly one label from the five-element biome set. -/
theorem normalize_biome_thresholds_spec (th : BiomeTh) :
    (0 ≤ (normalize_biome_thresholds th).water ∧
     (normalize_biome_thresholds th).water ≤ (normalize_biome_thresholds th).sand ∧
     (normalize_biome_thresholds th).sand ≤ (normalize_biome_thresholds th).grass ∧
     (normalize_biome_thresholds th).grass ≤ (normalize_biome_thresholds th).forest ∧
     (normalize_biome_thresholds th).forest ≤ 1) ∧
    (∀ h : ℚ, ∀ t : BiomeTh,
      biome_from_height h t ∈ ["water", "sand", "grass", "forest", "mountain"]) := by
  constructor
  · have hw := thresholdStep_bounds 0 th.water le_rfl (by norm_num)
    have hs := thresholdStep_bounds (thresholdStep 0 th.water) th.sand hw.2.1 hw.2.2
    have hg := thresholdStep_bounds (thresholdStep (thresholdStep 0 th.water) th.sand)
      th.grass hs.2.1 hs.2.2
    have hf := thresholdStep_bounds
      (thresholdStep (thresholdStep (thresholdStep 0 th.water) th.sand) th.grass)
      th.forest hg.2.1 hg.2.2
    exact ⟨hw.2.1, hs.1, hg.1, hf.1, hf.2.2⟩
  · intro h t
    unfold biome_from_height
    split
    · simp
    · split
      · simp
      · split
        · simp
        · split
          · simp
          · simp

/-! ### River carver (`src/worldgen/rivers.py`) -/

/-- `_neighbors(i, j, W, H)`: the in-bounds 4-neighbours of `(i, j)` in the
fixed probe order east, west, south, north, as coordinate pairs `(x, y)`. -/
def neighbors (i j W H : ℕ) : List (ℕ × ℕ) :=
  (if i + 1 < W then [(i + 1, j)] else []) ++
  (if 1 ≤ i ∧ i - 1 < W then [(i - 1, j)] else []) ++
  (if j + 1 < H then [(i, j + 1)] else []) ++
  (if 1 ≤ j ∧ j - 1 < H then [(i, j - 1)] else [])

/-- Stable insertion of `x` into a list: `x` goes in front of the first
element `y` with `le x y`; inserting from the right (`List.foldr`) this
reproduces the stable ascending order of Python's `list.sort`. -/
def insertLe {α : Type} (le : α → α → Bool) (x : α) : List α → List α
  | [] => [x]
  | y :: ys => if le x y then x :: y :: ys else y :: insertLe le x ys

/-- Stable sort by the boolean comparison `le` (Python `list.sort`). -/
def sortLe {α : Type} (le : α → α → Bool) (l : List α) : List α :=
  l.foldr (insertLe le) []

/-- `neigh.sort(key=lambda xy: hm[xy[1]][xy[0]])`: neighbours in ascending
height order, ties kept in probe order. -/
def sortByHeight (hm : Grid ℚ) (l : List (ℕ × ℕ)) : List (ℕ × ℕ) :=
  sortLe (fun p q => decide (hm p.2 p.1 ≤ hm q.2 q.1)) l

/-- The candidate scan of the river walk: the first neighbour (in ascending
height order) that is unvisited and whose height is at most
`hm[j][i] + 0.01`. -/
def findMove (hm : Grid ℚ) (visited : List (ℕ × ℕ)) (limit : ℚ) :
    List (ℕ × ℕ) → Option (ℕ × ℕ)
  | [] => none
  | n :: ns =>
      if n ∈ visited then findMove hm visited limit ns
      else if hm n.2 n.1 ≤ limit then some n
      else findMove hm visited limit ns

/-- One river trace: the `for _ in range(W*H*2)` loop of `carve_rivers`,
returning the updated rivers grid and the number of loop iterations
executed. -/
def riverWalk (hm : Grid ℚ) (bm : Grid String) (W H : ℕ) :
    ℕ → ℕ × ℕ → List (ℕ × ℕ) → Grid Bool → Grid Bool × ℕ
  | 0, _, _, rivers => (rivers, 0)
  | fuel + 1, (i, j), visited, rivers =>
      let visited' := (i, j) :: visited
      let rivers' := rivers.set j i true
      if bm j i = "water" ∨ i = 0 ∨ j = 0 ∨ i = W - 1 ∨ j = H - 1 then
        (rivers', 1)
      else
        match findMove hm visited' (hm j i + 1 / 100)
            (sortByHeight hm (neighbors i j W H)) with
        | some nxy =>
            let r := riverWalk hm bm W H fuel nxy visited' rivers'
            (r.1, r.2 + 1)
        | none =>
            match sortByHeight hm (neighbors i j W H) with
            | [] =>
                let r := riverWalk hm bm W H fuel (i, j) visited' rivers'
                (r.1, r.2 + 1)
            | n0 :: _ =>
                let r := riverWalk hm bm W H fuel n0 visited' rivers'
                (r.1, r.2 + 1)

/-- The peak candidates `(i, j, h)` in row-major order: cells whose height is
`≥` every 4-neighbour's height. -/
def peakCands (hm : Grid ℚ) (W H : ℕ) : List ((ℕ × ℕ) × ℚ) :=
  ((List.range H).map fun j => (List.range W).filterMap fun i =>
    if (neighbors i j W H).all fun xy => decide (hm xy.2 xy.1 ≤ hm j i) then
      some ((i, j), hm j i)
    else none).flatten

/-- `_find_local_peaks`: candidates sorted by height descending (stable, like
Python `sort(reverse=True)`), truncated to `count`, coordinates only. -/
def find_local_peaks (hm : Grid ℚ) (W H count : ℕ) : List (ℕ × ℕ) :=
  ((sortLe (fun a b => decide (b.2 ≤ a.2)) (peakCands hm W H)).take count).map
    fun c => c.1

/-- `carve_rivers(hm, bm, river_count)`: trace one walk per source with a
step budget of `W*H*2`, then overwrite the biome grid to "water" at every
river tile (the final double loop runs over `j < H`, `i < W`). -/
def carveRiversGrid (hm : Grid ℚ) (bm : Grid String) (W H river_count : ℕ) :
    Grid Bool :=
  (find_local_peaks hm W H river_count).foldl
    (fun riv s => (riverWalk hm bm W H (W * H * 2) s [] riv).1)
    (fun _ _ => false)

def carve_rivers (hm : Grid ℚ) (bm : Grid String) (W H river_count : ℕ) :
    Grid Bool × Grid String :=
  (carveRiversGrid hm bm W H river_count,
   fun j i =>
     if j < H ∧ i < W ∧ carveRiversGrid hm bm W H river_count j i = true then
       "water"
     else bm j i)

/-- Each river walk executes at most as many loop iterations as its fuel. -/
theorem riverWalk_steps_le_fuel (hm : Grid ℚ) (bm : Grid String) (W H : ℕ) :
    ∀ (fuel : ℕ) (pos : ℕ × ℕ) (visited : List (ℕ × ℕ)) (rivers : Grid Bool),
      (riverWalk hm bm W H fuel pos visited rivers).2 ≤ fuel := by
  intro fuel
  induction fuel with
  | zero => intro pos visited rivers; simp [riverWalk]
  | succ n ih =>
      intro pos visited rivers
      obtain ⟨i, j⟩ := pos
      by_cases hstop : bm j i = "water" ∨ i = 0 ∨ j = 0 ∨ i = W - 1 ∨ j = H - 1
      · simp [riverWalk, hstop]
      · rcases hfm : findMove hm ((i, j) :: visited) (hm j i + 1 / 100)
            (sortByHeight hm (neighbors i j W H)) with _ | nxy
        · rcases hsort : sortByHeight hm (neighbors i j W H) with _ | ⟨n0, rest⟩
          · have := ih (i, j) ((i, j) :: visited) (rivers.set j i true)
            rw [hsort] at hfm
            simp only [riverWalk, if_neg hstop, hsort, hfm]
            omega
          · have := ih n0 ((i, j) :: visited) (rivers.set j i true)
            rw [hsort] at hfm
            simp only [riverWalk, if_neg hstop, hsort, hfm]
            omega
        · have := ih nxy ((i, j) :: visited) (rivers.set j i true)
          simp only [riverWalk, if_neg hstop, hfm]
          omega

/-- C9: the walk traced from any river source under the hard step budget
`W*H*2` of `carve_rivers` executes at most `2×W×H` loop iterations — even
when the forced fall-back move revisits tiles — so `carve_rivers` always
terminates. -/
theorem riverWalk_budget (hm : Grid ℚ) (bm : Grid String) (W H : ℕ)
    (src : ℕ × ℕ) :
    (riverWalk hm bm W H (W * H * 2) src [] (fun _ _ => false)).2 ≤
      2 * (W * H) := by
  have := riverWalk_steps_le_fuel hm bm W H (W * H * 2) src [] (fun _ _ => false)
  omega

/-! ### POI placement (`src/worldgen/poi.py`) -/

/-- A placed point of interest. -/
structure POI where
  x : ℕ
  y : ℕ
  type : String
deriving Repr, DecidableEq

/-- `_manhattan(a, b) = |a0 - b0| + |a1 - b1|`. -/
def manhattan (a b : ℕ × ℕ) : ℕ :=
  ((a.1 : ℤ) - b.1).natAbs + ((a.2 : ℤ) - b.2).natAbs

theorem manhattan_comm (a b : ℕ × ℕ) : manhattan a b = manhattan b a := by
  unfold manhattan
  omega

/-- `can_place(kind, x, y)`: biome eligibility for the kind, then minimum
Manhattan spacing against every already placed POI. -/
def can_place (bm : Grid String) (min_spacing : ℕ) (pois : List POI)
    (kind : String) (x y : ℕ) : Bool :=
  if kind = "town" ∨ kind = "castle" then
    if ¬(bm y x = "grass" ∨ bm y x = "forest") then false
    else pois.all fun p => decide (min_spacing ≤ manhattan (p.x, p.y) (x, y))
  else if kind = "dungeon" then
    if ¬(bm y x = "mountain" ∨ bm y x = "forest" ∨ bm y x = "grass") then false
    else pois.all fun p => decide (min_spacing ≤ manhattan (p.x, p.y) (x, y))
  else pois.all fun p => decide (min_spacing ≤ manhattan (p.x, p.y) (x, y))

/-- `spawn(kind, attempts)`: rejection sampling with a bounded number of
attempts; `rng.randrange(W)` / `rng.randrange(H)` are modelled by an
arbitrary draw stream reduced mod `W` / mod `H`, consuming one stream index
per attempt.  Returns the POI list and the next stream index. -/
def spawn (bm : Grid String) (W H min_spacing : ℕ) (kind : String)
    (draws : ℕ → ℕ × ℕ) : ℕ → ℕ → List POI → List POI × ℕ
  | 0, k, pois => (pois, k)
  | t + 1, k, pois =>
      if can_place bm min_spacing pois kind ((draws k).1 % W) ((draws k).2 % H)
      then (pois ++ [⟨(draws k).1 % W, (draws k).2 % H, kind⟩], k + 1)
      else spawn bm W H min_spacing kind draws t (k + 1) pois

/-- `for _ in range(count): spawn(kind, 4000)`. -/
def spawnMany (bm : Grid String) (W H min_spacing : ℕ) (kind : String)
    (draws : ℕ → ℕ × ℕ) : ℕ → ℕ → List POI → List POI × ℕ
  | 0, k, pois => (pois, k)
  | c + 1, k, pois =>
      let r := spawn bm W H min_spacing kind draws 4000 k pois
      spawnMany bm W H min_spacing kind draws c r.2 r.1

/-- The requested POI counts. -/
structure PoiCounts where
  towns : ℕ
  castles : ℕ
  dungeons : ℕ
deriving Repr

/-- `place_pois(bm, counts, min_spacing, rng)`: castles first, then towns,
then dungeons, each with a 4000-attempt budget. -/
def place_pois (bm : Grid String) (W H : ℕ) (counts : PoiCounts)
    (min_spacing : ℕ) (draws : ℕ → ℕ × ℕ) : List POI :=
  let r1 := spawnMany bm W H min_spacing "castle" draws counts.castles 0 []
  let r2 := spawnMany bm W H min_spacing "town" draws counts.towns r1.2 r1.1
  let r3 := spawnMany bm W H min_spacing "dungeon" draws counts.dungeons r2.2 r2.1
  r3.1

/-- Biome eligibility of a placed POI, as stated by the spec. -/
def poiEligible (bm : Grid String) (p : POI) : Prop :=
  (p.type = "town" ∨ p.type = "castle" →
    bm p.y p.x = "grass" ∨ bm p.y p.x = "forest") ∧
  (p.type = "dungeon" →
    bm p.y p.x = "mountain" ∨ bm p.y p.x = "forest" ∨ bm p.y p.x = "grass")

/-- Two POIs are at Manhattan distance at least `min_spacing`. -/
def poiSpaced (min_spacing : ℕ) (p q : POI) : Prop :=
  min_spacing ≤ manhattan (p.x, p.y) (q.x, q.y)

/-- The invariant maintained by the placement loop. -/
def poisInv (bm : Grid String) (min_spacing : ℕ) (pois : List POI) : Prop :=
  (∀ p ∈ pois, poiEligible bm p) ∧ List.Pairwise (poiSpaced min_spacing) pois

theorem all_spacing_of_can_place (min_spacing : ℕ) (pois : List POI) (x y : ℕ)
    (h : (pois.all fun p =>
      decide (min_spacing ≤ manhattan (p.x, p.y) (x, y))) = true) :
    ∀ q ∈ pois, min_spacing ≤ manhattan (q.x, q.y) (x, y) := by
  intro q hq
  exact of_decide_eq_true (List.all_eq_true.mp h q hq)

theorem can_place_spec (bm : Grid String) (min_spacing : ℕ) (pois : List POI)
    (kind : String) (x y : ℕ)
    (h : can_place bm min_spacing pois kind x y = true) :
    (kind = "town" ∨ kind = "castle" → bm y x = "grass" ∨ bm y x = "forest") ∧
    (kind = "dungeon" →
      bm y x = "mountain" ∨ bm y x = "forest" ∨ bm y x = "grass") ∧
    ∀ q ∈ pois, min_spacing ≤ manhattan (q.x, q.y) (x, y) := by
  unfold can_place at h
  by_cases h1 : kind = "town" ∨ kind = "castle"
  · rw [if_pos h1] at h
    by_cases h2 : bm y x = "grass" ∨ bm y x = "forest"
    · rw [if_neg (not_not_intro h2)] at h
      refine ⟨fun _ => h2, fun hd => ?_, all_spacing_of_can_place _ _ _ _ h⟩
      exfalso
      rcases h1 with h1 | h1 <;> rw [hd] at h1 <;> simp at h1
    · rw [if_pos h2] at h
      exact absurd h (by simp)
  · rw [if_neg h1] at h
    by_cases h3 : kind = "dungeon"
    · rw [if_pos h3] at h
      by_cases h4 : bm y x = "mountain" ∨ bm y x = "forest" ∨ bm y x = "grass"
      · rw [if_neg (not_not_intro h4)] at h
        exact ⟨fun hc => absurd hc h1, fun _ => h4,
          all_spacing_of_can_place _ _ _ _ h⟩
      · rw [if_pos h4] at h
        exact absurd h (by simp)
    · rw [if_neg h3] at h
      exact ⟨fun hc => absurd hc h1, fun hd => absurd hd h3,
        all_spacing_of_can_place _ _ _ _ h⟩

theorem poisInv_append (bm : Grid String) (min_spacing : ℕ) (pois : List POI)
    (p : POI) (hinv : poisInv bm min_spacing pois) (hel : poiEligible bm p)
    (hsp : ∀ q ∈ pois, poiSpaced min_spacing q p) :
    poisInv bm min_spacing (pois ++ [p]) := by
  constructor
  · intro q hq
    rcases List.mem_append.mp hq with hq | hq
    · exact hinv.1 q hq
    · rw [List.mem_singleton.mp hq]
      exact hel
  · refine List.pairwise_append.mpr ⟨hinv.2, List.pairwise_singleton _ _, ?_⟩
    intro a ha b hb
    rw [List.mem_singleton.mp hb]
    exact hsp a ha

theorem spawn_preserves_inv (bm : Grid String) (W H min_spacing : ℕ)
    (kind : String) (draws : ℕ → ℕ × ℕ) :
    ∀ (t k : ℕ) (pois : List POI), poisInv bm min_spacing pois →
      poisInv bm min_spacing (spawn bm W H min_spacing kind draws t k pois).1 := by
  intro t
  induction t with
  | zero => intro k pois h; exact h
  | succ n ih =>
      intro k pois h
      unfold spawn
      split
      · rename_i hcp
        have hs := can_place_spec bm min_spacing pois kind _ _ hcp
        refine poisInv_append bm min_spacing pois _ h ⟨hs.1, hs.2.1⟩ ?_
        intro q hq
        exact hs.2.2 q hq
      · exact ih (k + 1) pois h

theorem spawnMany_preserves_inv (bm : Grid String) (W H min_spacing : ℕ)
    (kind : String) (draws : ℕ → ℕ × ℕ) :
    ∀ (c k : ℕ) (pois : List POI), poisInv bm min_spacing pois →
      poisInv bm min_spacing
        (spawnMany bm W H min_spacing kind draws c k pois).1 := by
  intro c
  induction c with
  | zero => intro k pois h; exact h
  | succ n ih =>
      intro k pois h
      unfold spawnMany
      exact ih _ _ (spawn_preserves_inv bm W H min_spacing kind draws 4000 k pois h)

/-- The placement invariant holds of the full output of `place_pois`. -/
theorem place_pois_inv (bm : Grid String) (W H : ℕ) (counts : PoiCounts)
    (min_spacing : ℕ) (draws : ℕ → ℕ × ℕ) :
    poisInv bm min_spacing (place_pois bm W H counts min_spacing draws) := by
  have h1 := spawnMany_preserves_inv bm W H min_spacing "castle" draws
    counts.castles 0 [] ⟨by intro p hp; simp at hp, List.Pairwise.nil⟩
  have h2 := spawnMany_preserves_inv bm W H min_spacing "town" draws
    counts.towns
    (spawnMany bm W H min_spacing "castle" draws counts.castles 0 []).2
    (spawnMany bm W H min_spacing "castle" draws counts.castles 0 []).1 h1
  have h3 := spawnMany_preserves_inv bm W H min_spacing "dungeon" draws
    counts.dungeons
    (spawnMany bm W H min_spacing "town" draws counts.towns
      (spawnMany bm W H min_spacing "castle" draws counts.castles 0 []).2
      (spawnMany bm W H min_spacing "castle" draws counts.castles 0 []).1).2
    (spawnMany bm W H min_spacing "town" draws counts.towns
      (spawnMany bm W H min_spacing "castle" draws counts.castles 0 []).2
      (spawnMany bm W H min_spacing "castle" draws counts.castles 0 []).1).1 h2
  exact h3

/-- C2: every POI returned by `place_pois` sits on a tile whose biome is in
its required eligible set (grass/forest for towns and castles;
mountain/forest/grass for dungeons), and every two POIs of the returned list
are at Manhattan distance at least `min_spacing` from each other. -/
theorem place_pois_spec (bm : Grid String) (W H : ℕ) (counts : PoiCounts)
    (min_spacing : ℕ) (draws : ℕ → ℕ × ℕ) (_hW : 1 ≤ W) (_hH : 1 ≤ H) :
    (∀ p ∈ place_pois bm W H counts min_spacing draws, poiEligible bm p) ∧
      List.Pairwise (poiSpaced min_spacing)
        (place_pois bm W H counts min_spacing draws) :=
  ⟨(place_pois_inv bm W H counts min_spacing draws).1,
   (place_pois_inv bm W H counts min_spacing draws).2⟩

/-- Witness for C2 on a concrete 1×1 all-grass grid requesting one town. -/
theorem place_pois_spec_witness :
    (∀ p ∈ place_pois (fun _ _ => "grass") 1 1 ⟨1, 0, 0⟩ 0 (fun _ => (0, 0)),
      poiEligible (fun _ _ => "grass") p) ∧
      List.Pairwise (poiSpaced 0)
        (place_pois (fun _ _ => "grass") 1 1 ⟨1, 0, 0⟩ 0 (fun _ => (0, 0))) :=
  place_pois_spec (fun _ _ => "grass") 1 1 ⟨1, 0, 0⟩ 0 (fun _ => (0, 0))
    (by norm_num) (by norm_num)

/-! ### Road connector (`src/worldgen/roads.py`) -/

/-- `_pass_cost(biome)`: terrain pass cost, default `4` for unknown labels. -/
def pass_cost (biome : String) : ℕ :=
  if biome = "water" then 9999
  else if biome = "sand" then 6
  else if biome = "grass" then 3
  else if biome = "forest" then 5
  else if biome = "mountain" then 8
  else 4

/-- The comparison used by `_lay_road`'s candidate sort: lexicographic on
`(pass_cost, manhattan-to-target)`. -/
def roadLe (bm : Grid String) (t : ℕ × ℕ) (p q : ℕ × ℕ) : Bool :=
  decide (pass_cost (bm p.2 p.1) < pass_cost (bm q.2 q.1) ∨
    (pass_cost (bm p.2 p.1) = pass_cost (bm q.2 q.1) ∧
      manhattan p t ≤ manhattan q t))

/-- The candidate scan of `_lay_road`: the first sorted neighbour whose biome
is not "water". -/
def firstNonWater (bm : Grid String) : List (ℕ × ℕ) → Option (ℕ × ℕ)
  | [] => none
  | n :: ns => if bm n.2 n.1 = "water" then firstNonWater bm ns else some n

/-- `_lay_road(bm, roads, a, b)`: greedy walk from `a` toward `b`, bounded by
`W*H` steps, marking each cell moved onto as road; abandons in place if every
neighbour is water. -/
def layRoad (bm : Grid String) (W H : ℕ) (t : ℕ × ℕ) :
    ℕ → ℕ × ℕ → Grid Bool → Grid Bool
  | 0, _, roads => roads
  | fuel + 1, (x, y), roads =>
      if (x, y) = t then roads
      else
        match firstNonWater bm
            (sortLe (roadLe bm t) (neighbors x y W H)) with
        | none => roads
        | some (nx, ny) =>
            layRoad bm W H t fuel (nx, ny) (roads.set ny nx true)

/-- `min(pool, key=manhattan-to-pt)`: Python `min` keeps the first minimum. -/
def nearest (pt : ℕ × ℕ) : List (ℕ × ℕ) → Option (ℕ × ℕ)
  | [] => none
  | q :: qs => some (qs.foldl
      (fun best r => if manhattan pt r < manhattan pt best then r else best) q)

/-- `connect_pois_with_roads(bm, pois)`: each town to its nearest castle
(else nearest other town), then consecutive castles, all via `_lay_road`
with a `W*H` step budget. -/
def connect_pois_with_roads (bm : Grid String) (W H : ℕ) (pois : List POI) :
    Grid Bool :=
  let towns := (pois.filter fun p => p.type == "town").map fun p => (p.x, p.y)
  let castles :=
    (pois.filter fun p => p.type == "castle").map fun p => (p.x, p.y)
  let roads1 := towns.foldl
    (fun rds t =>
      match (nearest t castles).orElse
          (fun _ => nearest t (towns.filter fun q => q != t)) with
      | some tgt => layRoad bm W H tgt (W * H) t rds
      | none => rds)
    ((fun _ _ => false) : Grid Bool)
  (castles.zip castles.tail).foldl
    (fun rds c => layRoad bm W H c.2 (W * H) c.1 rds) roads1

/-- Cells accepted by `firstNonWater` are never water. -/
theorem firstNonWater_not_water (bm : Grid String) :
    ∀ (l : List (ℕ × ℕ)) (n : ℕ × ℕ), firstNonWater bm l = some n →
      bm n.2 n.1 ≠ "water" := by
  intro l
  induction l with
  | nil => intro n h; simp [firstNonWater] at h
  | cons m ms ih =>
      intro n h
      unfold firstNonWater at h
      split at h
      · exact ih n h
      · rename_i hw
        cases h
        exact hw

/-- The road invariant: every marked cell has a non-water biome. -/
def roadsInv (bm : Grid String) (roads : Grid Bool) : Prop :=
  ∀ j i, roads j i = true → bm j i ≠ "water"

theorem roadsInv_set (bm : Grid String) (roads : Grid Bool) (ny nx : ℕ)
    (hinv : roadsInv bm roads) (hnw : bm ny nx ≠ "water") :
    roadsInv bm (roads.set ny nx true) := by
  intro j i h
  unfold Grid.set at h
  by_cases hc : j = ny ∧ i = nx
  · rw [hc.1, hc.2]
    exact hnw
  · rw [if_neg hc] at h
    exact hinv j i h

theorem layRoad_preserves_inv (bm : Grid String) (W H : ℕ) (t : ℕ × ℕ) :
    ∀ (fuel : ℕ) (pos : ℕ × ℕ) (roads : Grid Bool), roadsInv bm roads →
      roadsInv bm (layRoad bm W H t fuel pos roads) := by
  intro fuel
  induction fuel with
  | zero => intro pos roads h; exact h
  | succ n ih =>
      intro pos roads h
      obtain ⟨x, y⟩ := pos
      by_cases ht : (x, y) = t
      · simp only [layRoad, if_pos ht]
        exact h
      · rcases hfw : firstNonWater bm (sortLe (roadLe bm t) (neighbors x y W H))
          with _ | ⟨nx, ny⟩
        · simp only [layRoad, if_neg ht, hfw]
          exact h
        · simp only [layRoad, if_neg ht, hfw]
          exact ih (nx, ny) (roads.set ny nx true)
            (roadsInv_set bm roads ny nx h
              (firstNonWater_not_water bm _ _ hfw))

/-- C3: for every biome grid and every POI list, the road grid returned by
`connect_pois_with_roads` marks `true` only tiles whose biome is not
"water". -/
theorem connect_pois_with_roads_no_water (bm : Grid String) (W H : ℕ)
    (pois : List POI) (j i : ℕ)
    (h : connect_pois_with_roads bm W H pois j i = true) :
    bm j i ≠ "water" := by
  revert h
  suffices hinv : roadsInv bm (connect_pois_with_roads bm W H pois) by
    exact hinv j i
  unfold connect_pois_with_roads
  have hbase : roadsInv bm (fun _ _ => false) := by
    intro j i h
    simp at h
  have hfold1 : ∀ (ts : List (ℕ × ℕ)) (castles towns : List (ℕ × ℕ))
      (r0 : Grid Bool), roadsInv bm r0 →
      roadsInv bm (ts.foldl
        (fun rds t =>
          match (nearest t castles).orElse
              (fun _ => nearest t (towns.filter fun q => q != t)) with
          | some tgt => layRoad bm W H tgt (W * H) t rds
          | none => rds) r0) := by
    intro ts
    induction ts with
    | nil => intro castles towns r0 h0; exact h0
    | cons t ts ih =>
        intro castles towns r0 h0
        simp only [List.foldl_cons]
        apply ih
        split
        · exact layRoad_preserves_inv bm W H _ (W * H) t r0 h0
        · exact h0
  have hfold2 : ∀ (cs : List ((ℕ × ℕ) × (ℕ × ℕ))) (r0 : Grid Bool),
      roadsInv bm r0 →
      roadsInv bm (cs.foldl
        (fun rds c => layRoad bm W H c.2 (W * H) c.1 rds) r0) := by
    intro cs
    induction cs with
    | nil => intro r0 h0; exact h0
    | cons c cs ih =>
        intro r0 h0
        simp only [List.foldl_cons]
        exact ih _ (layRoad_preserves_inv bm W H c.2 (W * H) c.1 r0 h0)
  exact hfold2 _ _ (hfold1 _ _ _ _ hbase)

/-- Witness for C3: on a 2×1 all-grass grid with a town at `(0,0)` and a
castle at `(1,0)` the road lands on tile `(1,0)`, which is not water. -/
theorem connect_pois_with_roads_no_water_witness :
    ((fun _ _ => "grass") : Grid String) 0 1 ≠ "water" :=
  connect_pois_with_roads_no_water (fun _ _ => "grass") 2 1
    [⟨0, 0, "town"⟩, ⟨1, 0, "castle"⟩] 0 1 (by with_unfolding_all decide)

/-! ### World assembler (`src/worldgen/map_generator.py::generate_map`,
the canonical pipeline delegated to by `src/map_generator.py`) -/

/-- The POI section of the worldgen configuration. -/
structure PoiCfg where
  towns : ℕ
  castles : ℕ
  dungeons : ℕ
  min_spacing : ℕ
deriving Repr

/-- The full worldgen configuration after defaults are applied. -/
structure WorldCfg where
  width : ℕ
  height : ℕ
  seed : ℤ
  noise : NoiseCfg
  biomes : BiomeTh
  poi : PoiCfg
  rivers : ℕ

/-- The normalized heightmap as a grid function (`hm[j][i] =
normHeight i j`). -/
def heightFun (W H : ℕ) (seed : ℤ) (cfg : NoiseCfg) : Grid ℚ :=
  fun j i => normHeight W H seed cfg i j

/-- Pipeline step 1: the heightmap of `generate_map`. -/
def pipelineHeight (cfg : WorldCfg) : Grid ℚ :=
  heightFun cfg.width cfg.height cfg.seed cfg.noise

/-- Pipeline step 2: `_biomemap(hm, _normalize_biome_thresholds(...))`. -/
def pipelineBm0 (cfg : WorldCfg) : Grid String :=
  fun j i =>
    biome_from_height (pipelineHeight cfg j i)
      (normalize_biome_thresholds cfg.biomes)

/-- Pipeline step 3: `_carve_rivers` — rivers grid and mutated biome grid. -/
def pipelineCarved (cfg : WorldCfg) : Grid Bool × Grid String :=
  carve_rivers (pipelineHeight cfg) (pipelineBm0 cfg) cfg.width cfg.height
    cfg.rivers

/-- Pipeline step 4: `_place_pois` on the post-rivers biome grid. -/
def pipelinePois (cfg : WorldCfg) (draws : ℕ → ℕ × ℕ) : List POI :=
  place_pois (pipelineCarved cfg).2 cfg.width cfg.height
    ⟨cfg.poi.towns, cfg.poi.castles, cfg.poi.dungeons⟩ cfg.poi.min_spacing draws

/-- Pipeline step 5: `_connect_pois_with_roads`. -/
def pipelineRoads (cfg : WorldCfg) (draws : ℕ → ℕ × ℕ) : Grid Bool :=
  connect_pois_with_roads (pipelineCarved cfg).2 cfg.width cfg.height
    (pipelinePois cfg draws)

/-- A named location entry `{"type": ..., "name": ...}`. -/
structure LocEntry where
  type : String
  name : String
deriving Repr, DecidableEq

/-- The dict key `f"{p.x},{p.y}"`. -/
def locKey (x y : ℕ) : String :=
  Nat.repr x ++ "," ++ Nat.repr y

/-- Python dict assignment `d[k] = v` on an insertion-ordered association
list: replace in place if the key is present, else append. -/
def dictInsert (k : String) (v : LocEntry) :
    List (String × LocEntry) → List (String × LocEntry)
  | [] => [(k, v)]
  | (k', v') :: rest =>
      if k' = k then (k, v) :: rest else (k', v') :: dictInsert k v rest

/-- One step of the naming loop: the entry `{"type": p.type, "name": ...}`
for the POI and the updated `(town_i, castle_i, dungeon_i)` counters (a POI
that is neither town nor castle is named as a dungeon, per the `else`
branch). -/
def locEntryFor (p : POI) (ti ci di : ℕ) : LocEntry × ℕ × ℕ × ℕ :=
  if p.type = "town" then (⟨p.type, "Town " ++ Nat.repr ti⟩, ti + 1, ci, di)
  else if p.type = "castle" then
    (⟨p.type, "Castle " ++ Nat.repr ci⟩, ti, ci + 1, di)
  else (⟨p.type, "Dungeon " ++ Nat.repr di⟩, ti, ci, di + 1)

/-- The naming loop of `generate_map`: sequential counters per type, entries
written into the locations dict keyed by `"x,y"`. -/
def buildLocationsAux :
    List POI → ℕ → ℕ → ℕ → List (String × LocEntry) → List (String × LocEntry)
  | [], _, _, _, acc => acc
  | p :: rest, ti, ci, di, acc =>
      buildLocationsAux rest (locEntryFor p ti ci di).2.1
        (locEntryFor p ti ci di).2.2.1 (locEntryFor p ti ci di).2.2.2
        (dictInsert (locKey p.x p.y) (locEntryFor p ti ci di).1 acc)

/-- The locations dict of the assembled world. -/
def buildLocations (pois : List POI) : List (String × LocEntry) :=
  buildLocationsAux pois 1 1 1 []

/-- The assembled output world structure. -/
structure World where
  width : ℕ
  height : ℕ
  seed : ℤ
  heightmap : Grid ℚ
  biomes : Grid String
  rivers : Grid Bool
  roads : Grid Bool
  locations : List (String × LocEntry)

/-- The fresh-generation path of `generate_map` (cache bypassed): heightmap →
biomes → rivers → POIs → roads → locations, assembled into a `World`. -/
def generateWorld (cfg : WorldCfg) (draws : ℕ → ℕ × ℕ) : World :=
  { width := cfg.width
    height := cfg.height
    seed := cfg.seed
    heightmap := pipelineHeight cfg
    biomes := (pipelineCarved cfg).2
    rivers := (pipelineCarved cfg).1
    roads := pipelineRoads cfg draws
    locations := buildLocations (pipelinePois cfg draws) }

/-- C1: after `carve_rivers`, every tile marked in the rivers grid has biome
"water" in the returned biome grid; and since no later pipeline stage writes
to the biome grid, the rivers grid and biomes grid of the final `World`
returned by the fresh-generation path of `generate_map` satisfy the same
property. -/
theorem carve_rivers_marks_water :
    (∀ (hm : Grid ℚ) (bm : Grid String) (W H rc : ℕ), 1 ≤ W → 1 ≤ H →
      ∀ i j, i < W → j < H →
        (carve_rivers hm bm W H rc).1 j i = true →
        (carve_rivers hm bm W H rc).2 j i = "water") ∧
    (∀ (cfg : WorldCfg) (draws : ℕ → ℕ × ℕ) (i j : ℕ),
      i < cfg.width → j < cfg.height →
      (generateWorld cfg draws).rivers j i = true →
      (generateWorld cfg draws).biomes j i = "water") := by
  have hcarve : ∀ (hm : Grid ℚ) (bm : Grid String) (W H rc : ℕ),
      ∀ i j, i < W → j < H →
        (carve_rivers hm bm W H rc).1 j i = true →
        (carve_rivers hm bm W H rc).2 j i = "water" := by
    intro hm bm W H rc i j hi hj hriv
    have hgrid : carveRiversGrid hm bm W H rc j i = true := hriv
    show (if j < H ∧ i < W ∧ carveRiversGrid hm bm W H rc j i = true then
      "water" else bm j i) = "water"
    rw [if_pos ⟨hj, hi, hgrid⟩]
  exact ⟨fun hm bm W H rc _ _ => hcarve hm bm W H rc,
    fun cfg draws i j hi hj hriv =>
      hcarve (pipelineHeight cfg) (pipelineBm0 cfg) cfg.width cfg.height
        cfg.rivers i j hi hj hriv⟩

/-- Witness for C1 on a concrete 2×2 flat heightmap with one river: tile
`(0,0)` is a river tile and its biome after carving is "water". -/
theorem carve_rivers_marks_water_witness :
    (carve_rivers (fun _ _ => (0 : ℚ)) (fun _ _ => "grass") 2 2 1).2 0 0 =
      "water" :=
  carve_rivers_marks_water.1 (fun _ _ => (0 : ℚ)) (fun _ _ => "grass") 2 2 1
    (by norm_num) (by norm_num) 0 0 (by norm_num) (by norm_num)
    (by with_unfolding_all decide)

/-! ### World cache (`src/worldgen/cache.py::load_from_cache` and the cache
branch of `generate_map`) -/

/-- The cache read for a key, abstracting the filesystem and pickle:
`none` models a missing cache file, `some (Except.error e)` a file whose
deserialization raises (the `except Exception` branch), and
`some (Except.ok w)` a successful `pickle.load`. -/
def CacheRead : Type := Option (Except String World)

/-- `load_from_cache(seed, W, H)`: missing file returns `None`; a
deserialization failure is caught, logged and returns `None`; a success
returns the world.  The function is total — no exception escapes. -/
def load_from_cache (read : CacheRead) : Option World :=
  match read with
  | none => none
  | some (Except.error _) => none
  | some (Except.ok w) => some w

/-- The cache branch of `generate_map`: return the cached world when the
lookup succeeds, otherwise run the fresh-generation pipeline. -/
def generate_map_cached (read : CacheRead) (cfg : WorldCfg)
    (draws : ℕ → ℕ × ℕ) : World :=
  match load_from_cache read with
  | some w => w
  | none => generateWorld cfg draws

/-- C8: if the cache entry exists and deserializes successfully,
`generate_map` returns the cached world unchanged; if the entry is missing or
fails to deserialize, the lookup yields `none`, the failure is treated as a
cache miss and fresh generation proceeds; and the cache layer is a total
function — it never raises to the caller. -/
theorem generate_map_cache_spec (read : CacheRead) (cfg : WorldCfg)
    (draws : ℕ → ℕ × ℕ) :
    (∀ w : World, read = some (Except.ok w) →
      load_from_cache read = some w ∧ generate_map_cached read cfg draws = w) ∧
    (read = none ∨ (∃ e, read = some (Except.error e)) →
      load_from_cache read = none ∧
        generate_map_cached read cfg draws = generateWorld cfg draws) := by
  constructor
  · intro w hw
    subst hw
    exact ⟨rfl, rfl⟩
  · intro hmiss
    rcases hmiss with hnone | ⟨e, herr⟩
    · subst hnone
      exact ⟨rfl, rfl⟩
    · subst herr
      exact ⟨rfl, rfl⟩

/-- Witness for C8 at a concrete cached world and a concrete failing read. -/
theorem generate_map_cache_spec_witness :
    generate_map_cached
      (some (Except.ok (World.mk 1 1 0 (fun _ _ => 0) (fun _ _ => "grass")
        (fun _ _ => false) (fun _ _ => false) [])))
      ⟨1, 1, 0, ⟨32, 0, 1/2, 2⟩, ⟨0, 0, 1, 1⟩, ⟨0, 0, 0, 0⟩, 0⟩
      (fun _ => (0, 0)) =
      World.mk 1 1 0 (fun _ _ => 0) (fun _ _ => "grass")
        (fun _ _ => false) (fun _ _ => false) [] ∧
    load_from_cache (some (Except.error "corrupt pickle")) = none :=
  ⟨((generate_map_cache_spec
      (some (Except.ok (World.mk 1 1 0 (fun _ _ => 0) (fun _ _ => "grass")
        (fun _ _ => false) (fun _ _ => false) [])))
      ⟨1, 1, 0, ⟨32, 0, 1/2, 2⟩, ⟨0, 0, 1, 1⟩, ⟨0, 0, 0, 0⟩, 0⟩
      (fun _ => (0, 0))).1 _ rfl).2,
   ((generate_map_cache_spec (some (Except.error "corrupt pickle"))
      ⟨1, 1, 0, ⟨32, 0, 1/2, 2⟩, ⟨0, 0, 1, 1⟩, ⟨0, 0, 0, 0⟩, 0⟩
      (fun _ => (0, 0))).2 (Or.inr ⟨_, rfl⟩)).1⟩

/-! ### Starting-location resolution
(`src/player_manager/player_manager.py::find_starting_position`) -/

/-- The `GameWorld` attribute the live code consults. -/
structure GameWorldM where
  starting_room_id : String

/-- The parts of the `game` object `find_starting_position` reads: the
optional `game.game_world` and the `locations` dict of the procedural world
map (`game.world.map["locations"]`), which only the unreachable code after
the `raise` would consult. -/
structure GameM where
  game_world : Option GameWorldM
  locations : List (String × LocEntry)

/-- `x, y = map(int, room_id.split(","))`: succeeds only on exactly two
integer components. -/
def parseXY (s : String) : Option (ℤ × ℤ) :=
  match s.splitOn "," with
  | [a, b] =>
      match a.toInt?, b.toInt? with
      | some x, some y => some (x, y)
      | _, _ => none
  | _ => none

/-- The live behaviour of `find_starting_position`: parse
`game_world.starting_room_id` when a game world exists, otherwise raise
`RuntimeError("No starting room defined...")`.  Everything after this
`raise` in the source — the dungeon-preference scan of `locations`, the
first-location fallback, and the final `return (0, 0)` — is unreachable. -/
def find_starting_position (game : GameM) : Except String (ℤ × ℤ) :=
  match game.game_world with
  | some gw =>
      match parseXY gw.starting_room_id with
      | some xy => Except.ok xy
      | none => Except.error "Corrupted starting_room_id in GameWorld."
  | none =>
      Except.error "No starting room defined. World generation may have failed."

/-- C6 (code bug): on a game whose world has one dungeon location at `(5,7)`
and no `game_world`, `find_starting_position` raises instead of returning the
dungeon's coordinates — the unconditional `raise` makes the documented
dungeon-preference resolution unreachable. -/
theorem find_starting_position_raises_on_dungeon_world :
    find_starting_position ⟨none, [("5,7", ⟨"dungeon", "Dungeon 1"⟩)]⟩ =
      Except.error
        "No starting room defined. World generation may have failed." :=
  rfl

/-! ### Decimal representation facts for the `"x,y"` location keys -/

/-- The character list of `Nat.repr n`: `'0'` for zero, else the decimal
digits most-significant first. -/
def reprChars (n : ℕ) : List Char :=
  if n = 0 then ['0'] else ((Nat.digits 10 n).map Nat.digitChar).reverse

theorem toDigitsCore_eq_reprChars :
    ∀ (fuel n : ℕ), n < fuel → ∀ acc : List Char,
      Nat.toDigitsCore 10 fuel n acc = reprChars n ++ acc := by
  intro fuel
  induction fuel with
  | zero => intro n hn; omega
  | succ f ih =>
      intro n hn acc
      rw [show Nat.toDigitsCore 10 (f + 1) n acc =
        if n / 10 = 0 then Nat.digitChar (n % 10) :: acc
        else Nat.toDigitsCore 10 f (n / 10) (Nat.digitChar (n % 10) :: acc)
        from rfl]
      by_cases h0 : n / 10 = 0
      · rw [if_pos h0]
        have hn10 : n < 10 := by
          by_contra hge
          push_neg at hge
          have : 0 < n / 10 := Nat.div_pos hge (by norm_num)
          omega
        by_cases hz : n = 0
        · subst hz
          simp [reprChars, Nat.digitChar]
        · simp only [reprChars, if_neg hz]
          rw [Nat.digits_def' (by norm_num : (1 : ℕ) < 10)
            (Nat.pos_of_ne_zero hz), h0]
          simp
      · rw [if_neg h0]
        have hz : n ≠ 0 := by
          intro h
          subst h
          simp at h0
        have hpos : 0 < n := Nat.pos_of_ne_zero hz
        have hlt : n / 10 < f := by
          have h1 : n / 10 < n := Nat.div_lt_self hpos (by norm_num)
          omega
        rw [ih (n / 10) hlt (Nat.digitChar (n % 10) :: acc)]
        simp only [reprChars, if_neg hz, if_neg h0]
        rw [Nat.digits_def' (by norm_num : (1 : ℕ) < 10) hpos]
        simp [List.append_assoc]

theorem repr_eq_reprChars (n : ℕ) : Nat.repr n = (reprChars n).asString := by
  show (Nat.toDigits 10 n).asString = (reprChars n).asString
  rw [show Nat.toDigits 10 n = Nat.toDigitsCore 10 (n + 1) n [] from rfl,
    toDigitsCore_eq_reprChars (n + 1) n (Nat.lt_succ_self n) [],
    List.append_nil]

/-- The numeric value of a decimal digit character. -/
def digitVal (c : Char) : ℕ := c.toNat - '0'.toNat

theorem digitVal_digitChar (d : ℕ) (hd : d < 10) :
    digitVal (Nat.digitChar d) = d := by
  interval_cases d <;> decide

/-- Decode a most-significant-first decimal character list. -/
def decodeDigits (cs : List Char) : ℕ :=
  cs.foldl (fun acc c => acc * 10 + digitVal c) 0

theorem foldr_digitChar_eq_ofDigits :
    ∀ l : List ℕ, (∀ d ∈ l, d < 10) →
      l.foldr (fun d acc => acc * 10 + digitVal (Nat.digitChar d)) 0 =
        Nat.ofDigits 10 l := by
  intro l
  induction l with
  | nil => intro _; simp [Nat.ofDigits_nil]
  | cons d t ih =>
      intro hl
      rw [List.foldr_cons, ih (fun e he => hl e (List.mem_cons_of_mem d he)),
        Nat.ofDigits_cons, digitVal_digitChar d (hl d (List.mem_cons_self d t))]
      ring

theorem decodeDigits_reprChars (n : ℕ) : decodeDigits (reprChars n) = n := by
  by_cases hz : n = 0
  · subst hz
    decide
  · unfold decodeDigits reprChars
    rw [if_neg hz, List.foldl_reverse, List.foldr_map,
      foldr_digitChar_eq_ofDigits (Nat.digits 10 n)
        (fun d hd => Nat.digits_lt_base (by norm_num) hd)]
    exact_mod_cast Nat.ofDigits_digits 10 n

theorem reprChars_injective (m n : ℕ) (h : reprChars m = reprChars n) :
    m = n := by
  rw [← decodeDigits_reprChars m, ← decodeDigits_reprChars n, h]

theorem digitChar_ne_comma (d : ℕ) (hd : d < 10) : Nat.digitChar d ≠ ',' := by
  interval_cases d <;> decide

theorem reprChars_ne_comma (n : ℕ) : ∀ c ∈ reprChars n, c ≠ ',' := by
  intro c hc
  unfold reprChars at hc
  by_cases hz : n = 0
  · rw [if_pos hz] at hc
    rw [List.mem_singleton.mp hc]
    decide
  · rw [if_neg hz] at hc
    rw [List.mem_reverse] at hc
    rcases List.mem_map.mp hc with ⟨d, hd, rfl⟩
    exact digitChar_ne_comma d (Nat.digits_lt_base (by norm_num) hd)

theorem append_comma_injective :
    ∀ (a : List Char) (b : List Char) (a' b' : List Char),
      (∀ c ∈ a, c ≠ ',') → (∀ c ∈ a', c ≠ ',') →
      a ++ ',' :: b = a' ++ ',' :: b' → a = a' ∧ b = b' := by
  intro a
  induction a with
  | nil =>
      intro b a' b' _ ha' h
      cases a' with
      | nil =>
          simp only [List.nil_append] at h
          exact ⟨rfl, (List.cons.injEq _ _ _ _ ▸ h).2⟩
      | cons x xs =>
          simp only [List.nil_append, List.cons_append] at h
          have hx : x = ',' := ((List.cons.injEq _ _ _ _ ▸ h).1).symm
          exact absurd hx (ha' x (List.mem_cons_self x xs))
  | cons x xs ih =>
      intro b a' b' ha ha' h
      cases a' with
      | nil =>
          simp only [List.cons_append, List.nil_append] at h
          have hx : x = ',' := (List.cons.injEq _ _ _ _ ▸ h).1
          exact absurd hx (ha x (List.mem_cons_self x xs))
      | cons y ys =>
          simp only [List.cons_append] at h
          have h1 : x = y := (List.cons.injEq _ _ _ _ ▸ h).1
          have h2 := (List.cons.injEq _ _ _ _ ▸ h).2
          rcases ih b ys b' (fun c hc => ha c (List.mem_cons_of_mem x hc))
            (fun c hc => ha' c (List.mem_cons_of_mem y hc)) h2 with ⟨hxs, hb⟩
          exact ⟨by rw [h1, hxs], hb⟩

theorem string_data_append (a b : String) :
    (a ++ b).data = a.data ++ b.data := by
  cases a
  cases b
  rfl

theorem asString_data (l : List Char) : l.asString.data = l := rfl

theorem comma_data : ",".data = [','] := by decide

theorem locKey_data (x y : ℕ) :
    (locKey x y).data = reprChars x ++ ',' :: reprChars y := by
  unfold locKey
  rw [string_data_append, string_data_append, repr_eq_reprChars,
    repr_eq_reprChars, asString_data, asString_data, comma_data,
    List.append_assoc]
  rfl

theorem locKey_injective (x y x' y' : ℕ) (h : locKey x y = locKey x' y') :
    x = x' ∧ y = y' := by
  have hd : (locKey x y).data = (locKey x' y').data := congrArg String.data h
  rw [locKey_data, locKey_data] at hd
  rcases append_comma_injective (reprChars x) (reprChars y) (reprChars x')
    (reprChars y') (reprChars_ne_comma x) (reprChars_ne_comma x') hd with
    ⟨h1, h2⟩
  exact ⟨reprChars_injective x x' h1, reprChars_injective y y' h2⟩

/-! ### The locations dict of the assembled world (C10) -/

theorem dictInsert_of_not_mem (k : String) (v : LocEntry) :
    ∀ l : List (String × LocEntry), k ∉ l.map Prod.fst →
      dictInsert k v l = l ++ [(k, v)] := by
  intro l
  induction l with
  | nil => intro _; rfl
  | cons e rest ih =>
      intro h
      obtain ⟨k', v'⟩ := e
      have hne : k' ≠ k := by
        intro hkk
        exact h (by simp [hkk])
      unfold dictInsert
      rw [if_neg hne, ih (fun hm => h (by simp [hm]))]
      simp

theorem mem_dictInsert (k : String) (v : LocEntry) :
    ∀ (l : List (String × LocEntry)) (e : String × LocEntry),
      e ∈ dictInsert k v l → e = (k, v) ∨ e ∈ l := by
  intro l
  induction l with
  | nil =>
      intro e he
      simp only [dictInsert] at he
      exact Or.inl (List.mem_singleton.mp he)
  | cons hd rest ih =>
      intro e he
      obtain ⟨k', v'⟩ := hd
      unfold dictInsert at he
      split at he
      · rcases List.mem_cons.mp he with h | h
        · exact Or.inl h
        · exact Or.inr (List.mem_cons_of_mem _ h)
      · rcases List.mem_cons.mp he with h | h
        · exact Or.inr (h ▸ List.mem_cons_self _ _)
        · rcases ih e h with h2 | h2
          · exact Or.inl h2
          · exact Or.inr (List.mem_cons_of_mem _ h2)

theorem buildLocationsAux_mem :
    ∀ (pois : List POI) (ti ci di : ℕ) (acc : List (String × LocEntry))
      (e : String × LocEntry), e ∈ buildLocationsAux pois ti ci di acc →
      e ∈ acc ∨ ∃ p ∈ pois, e.1 = locKey p.x p.y := by
  intro pois
  induction pois with
  | nil => intro ti ci di acc e he; exact Or.inl he
  | cons p rest ih =>
      intro ti ci di acc e he
      unfold buildLocationsAux at he
      rcases ih _ _ _ _ e he with h | ⟨q, hq, hk⟩
      · rcases mem_dictInsert _ _ _ _ h with h2 | h2
        · exact Or.inr ⟨p, List.mem_cons_self p rest, by rw [h2]⟩
        · exact Or.inl h2
      · exact Or.inr ⟨q, List.mem_cons_of_mem p hq, hk⟩

theorem buildLocationsAux_length :
    ∀ (pois : List POI) (ti ci di : ℕ) (acc : List (String × LocEntry)),
      (∀ p ∈ pois, locKey p.x p.y ∉ acc.map Prod.fst) →
      List.Pairwise (fun p q : POI => locKey p.x p.y ≠ locKey q.x q.y) pois →
      (buildLocationsAux pois ti ci di acc).length =
        acc.length + pois.length := by
  intro pois
  induction pois with
  | nil => intro ti ci di acc _ _; simp [buildLocationsAux]
  | cons p rest ih =>
      intro ti ci di acc hfresh hpair
      have hphd : locKey p.x p.y ∉ acc.map Prod.fst :=
        hfresh p (List.mem_cons_self p rest)
      have hins := dictInsert_of_not_mem (locKey p.x p.y)
        (locEntryFor p ti ci di).1 acc hphd
      rcases List.pairwise_cons.mp hpair with ⟨hhd, htl⟩
      unfold buildLocationsAux
      rw [ih _ _ _ _ ?_ htl]
      · rw [hins]
        simp only [List.length_append, List.length_cons, List.length_nil]
        omega
      · intro q hq
        rw [hins]
        simp only [List.map_append, List.map_cons, List.map_nil,
          List.mem_append, List.mem_singleton]
        rintro (h | h)
        · exact hfresh q (List.mem_cons_of_mem p hq) h
        · exact hhd q hq h.symm

theorem buildLocations_length (pois : List POI)
    (h : List.Pairwise (fun p q : POI => locKey p.x p.y ≠ locKey q.x q.y)
      pois) :
    (buildLocations pois).length = pois.length := by
  unfold buildLocations
  rw [buildLocationsAux_length pois 1 1 1 [] (by simp) h]
  simp

theorem poiSpaced_coords_ne (min_spacing : ℕ) (hms : 1 ≤ min_spacing)
    (p q : POI) (h : poiSpaced min_spacing p q) : (p.x, p.y) ≠ (q.x, q.y) := by
  intro heq
  rw [Prod.ext_iff] at heq
  obtain ⟨hx, hy⟩ := heq
  simp only at hx hy
  unfold poiSpaced manhattan at h
  simp only [hx, hy] at h
  omega

/-- The configuration exhibiting the `min_spacing = 0` overwrite: a 1×1
all-grass world (octaves 0 makes the heightmap flat zero, and thresholds
`0/0/1/1` classify it as grass), two requested towns, spacing `0`. -/
def cfgOverwrite : WorldCfg :=
  ⟨1, 1, 0, ⟨32, 0, 1/2, 2⟩, ⟨0, 0, 1, 1⟩, ⟨2, 0, 0, 0⟩, 0⟩

/-- The same configuration with `min_spacing = 1`. -/
def cfgSpaced : WorldCfg :=
  ⟨1, 1, 0, ⟨32, 0, 1/2, 2⟩, ⟨0, 0, 1, 1⟩, ⟨2, 0, 0, 1⟩, 0⟩

/-- C10: the locations map of the assembled world is keyed by the string
`"x,y"` of each POI's coordinates; when `min_spacing ≥ 1` the placed POIs
occupy pairwise distinct tiles and the locations map has exactly one entry
per placed POI; and when `min_spacing = 0` two POIs can land on the same
tile and the later location entry overwrites the earlier one, leaving fewer
entries than POIs — exhibited concretely by `cfgOverwrite`, which places two
towns on tile `(0,0)` and ends with the single entry `"0,0" ↦ Town 2`. -/
theorem locations_keying_and_overwrite :
    (∀ (cfg : WorldCfg) (draws : ℕ → ℕ × ℕ),
      (∀ e ∈ (generateWorld cfg draws).locations,
        ∃ p ∈ pipelinePois cfg draws, e.1 = locKey p.x p.y) ∧
      (1 ≤ cfg.poi.min_spacing →
        List.Pairwise (fun p q : POI => (p.x, p.y) ≠ (q.x, q.y))
          (pipelinePois cfg draws) ∧
        (generateWorld cfg draws).locations.length =
          (pipelinePois cfg draws).length)) ∧
    (pipelinePois cfgOverwrite (fun _ => (0, 0)) =
        [⟨0, 0, "town"⟩, ⟨0, 0, "town"⟩] ∧
      (generateWorld cfgOverwrite (fun _ => (0, 0))).locations =
        [(locKey 0 0, ⟨"town", "Town 2"⟩)]) := by
  constructor
  · intro cfg draws
    constructor
    · intro e he
      rcases buildLocationsAux_mem (pipelinePois cfg draws) 1 1 1 [] e he with
        h | h
      · simp at h
      · exact h
    · intro hms
      have hpair := (place_pois_inv (pipelineCarved cfg).2 cfg.width cfg.height
        ⟨cfg.poi.towns, cfg.poi.castles, cfg.poi.dungeons⟩
        cfg.poi.min_spacing draws).2
      have hcoords : List.Pairwise
          (fun p q : POI => (p.x, p.y) ≠ (q.x, q.y))
          (pipelinePois cfg draws) :=
        hpair.imp (fun hsp => poiSpaced_coords_ne _ hms _ _ hsp)
      refine ⟨hcoords, ?_⟩
      have hkeys : List.Pairwise
          (fun p q : POI => locKey p.x p.y ≠ locKey q.x q.y)
          (pipelinePois cfg draws) := by
        refine hcoords.imp ?_
        intro a b hne hk
        rcases locKey_injective a.x a.y b.x b.y hk with ⟨h1, h2⟩
        exact hne (by rw [h1, h2])
      exact buildLocations_length _ hkeys
  · exact ⟨by with_unfolding_all decide, by with_unfolding_all decide⟩

/-- Witness for C10 with `min_spacing = 1` on the concrete 1×1 world: the
placed POIs occupy distinct tiles and the locations map has one entry per
POI. -/
theorem locations_keying_and_overwrite_witness :
    List.Pairwise (fun p q : POI => (p.x, p.y) ≠ (q.x, q.y))
      (pipelinePois cfgSpaced (fun _ => (0, 0))) ∧
    (generateWorld cfgSpaced (fun _ => (0, 0))).locations.length =
      (pipelinePois cfgSpaced (fun _ => (0, 0))).length :=
  (locations_keying_and_overwrite.1 cfgSpaced (fun _ => (0, 0))).2
    (by norm_num [cfgSpaced])
